import Mathlib

/-!
Verification development for the `osmpbf` decoder (`src/osmpbf.py`).

The Python source is shallowly embedded as follows:

* a byte stream / `io.BytesIO` cursor is a `List Nat` of byte values; a
  `file.read(n)` on such a cursor returns `min n remaining` bytes (the
  `BytesIO` semantics the source relies on), so reader functions take the
  remaining byte list and return the value read, the reported length `l`,
  and the remaining bytes after the read;
* Python exceptions (`Exception`, `AssertionError`, `TypeError`,
  `IndexError`, `StopIteration`, `UnboundLocalError`, `struct.error`,
  `zlib.error`) become an `Except Err` result;
* Python's unbounded `int` is `Nat`/`Int`;
* `bytes.decode()` (UTF-8 decoding of string-table entries) is modelled by
  keeping the raw byte string: the records carry the byte strings of the
  decoded text;
* generators are modelled as functions returning the list of all yielded
  values (in `Except`): an exception raised mid-iteration makes the whole
  result an `.error`, matching the fact that an exception thrown while a
  generator runs terminates the whole iteration;
* `zlib.decompress` is kept abstract: the framing layer takes the
  decompression function as an explicit argument `dc`;
* loops whose Python termination argument is "every iteration consumes at
  least one byte" are given an explicit fuel argument so that every
  definition is structurally recursive and kernel-evaluable; the top-level
  wrappers pass a fuel that this consumption argument makes sufficient, and
  the `.outOfFuel` error is unreachable there.
-/

/-- Byte strings: lists of byte values. -/
abbrev Bytes := List Nat

/-- The error outcomes of the Python code (exception kinds it can raise). -/
inductive Err where
  /-- `Exception('unexpected EOF')` raised by `pbuf_read_varint`. -/
  | eof
  /-- `Exception('unhandled field ... type ...')` in `pbuf_read_tagval`. -/
  | unhandledField
  /-- `struct.error` from `struct.unpack('>I', s)` on fewer than 4 bytes. -/
  | structError
  /-- A failing `assert` statement (`AssertionError`). -/
  | assertionError
  /-- `Exception('unahndled encoding ...')` in `pbf_read`. -/
  | unhandledEncoding
  /-- `TypeError`: a value of the wrong Python type reaches an operation. -/
  | typeError
  /-- `AttributeError`: e.g. `.decode()` on an `int`. -/
  | attributeError
  /-- `IndexError`: list index out of range, e.g. `names[i]`. -/
  | indexError
  /-- `StopIteration` escaping from an explicit `next(gs)` call. -/
  | stopIteration
  /-- `UnboundLocalError`: a local variable referenced before assignment. -/
  | unboundLocal
  /-- `Exception('unhandled tag ... in string table')`. -/
  | unhandledTag
  /-- `zlib.error` from the decompression callback. -/
  | zlibError
  /-- Model artefact: loop fuel exhausted (unreachable for the wrappers'
  chosen fuel, because every loop iteration consumes at least one byte). -/
  | outOfFuel
deriving DecidableEq, Repr

/-- A protobuf field value: wire type 0 gives an unsigned integer, wire
type 2 a byte string (mirrors the two value shapes of `pbuf_read_tagval`). -/
inductive TagVal where
  | int : Nat → TagVal
  | bytes : Bytes → TagVal
deriving DecidableEq, Repr

/-- ASCII byte string of a Lean string literal (all literals used are ASCII,
where the UTF-8 bytes coincide with the code points). -/
def ascii (s : String) : Bytes := s.data.map Char.toNat

/-- Loop body of `pbuf_read_varint` (source lines 18-31): `r` is the
accumulated result, `i` the current bit offset, `l` the bytes consumed. -/
def varintLoop : Bytes → Nat → Nat → Nat → Except Err (Nat × Nat × Bytes)
  | [], _, _, _ => .error .eof
  | x :: rest, r, i, l =>
    let r' := r ||| ((x &&& 0x7f) <<< i)
    if x &&& 0x80 ≠ 0 then varintLoop rest r' (i + 7) (l + 1)
    else .ok (r', l + 1, rest)

/-- `pbuf_read_varint(file)`: base-128 varint; returns `(value, length)`
and the remaining bytes. -/
def pbuf_read_varint (data : Bytes) : Except Err (Nat × Nat × Bytes) :=
  varintLoop data 0 0 0

/-- `pbuf_read_varsint(file)`: varint followed by the source's zig-zag
step `v = -(v >> 1) if (v & 1) else (v >> 1)`. -/
def pbuf_read_varsint (data : Bytes) : Except Err (Int × Nat × Bytes) :=
  match pbuf_read_varint data with
  | .error e => .error e
  | .ok (v, l, rest) =>
    .ok (if v &&& 1 ≠ 0 then -(Int.ofNat (v >>> 1)) else Int.ofNat (v >>> 1), l, rest)

/-- `pbuf_read_str(file)` (source lines 40-50): reads a length varint `n`,
then loops on `file.read(n)`.  On a `BytesIO`-style cursor the first read
returns everything available (at most `n` bytes), so the loop runs at most
twice: if `n` bytes are available the full value is returned; otherwise the
second read returns `b''`, the loop breaks, and the function returns the
empty byte string `s` (not the accumulated `val`!) together with
`len(val) + l`.  No exception is raised on truncation. -/
def pbuf_read_str (data : Bytes) : Except Err (Bytes × Nat × Bytes) :=
  match pbuf_read_varint data with
  | .error e => .error e
  | .ok (n, l, rest) =>
    if n = 0 then .ok ([], l, rest)
    else if n ≤ rest.length then .ok (rest.take n, n + l, rest.drop n)
    else .ok ([], rest.length + l, [])

/-- `pbuf_read_tag(file)`: one varint split into field number `v >> 3` and
wire type `v & 7`. -/
def pbuf_read_tag (data : Bytes) : Except Err (Nat × Nat × Nat × Bytes) :=
  match pbuf_read_varint data with
  | .error e => .error e
  | .ok (v, l, rest) => .ok (v >>> 3, v &&& 7, l, rest)

/-- `pbuf_read_tagval(file)`: a tag followed by a varint (wire type 0) or a
length-delimited byte string (wire type 2); any other wire type raises. -/
def pbuf_read_tagval (data : Bytes) : Except Err (Nat × TagVal × Nat × Bytes) :=
  match pbuf_read_tag data with
  | .error e => .error e
  | .ok (f, t, n, rest) =>
    match t with
    | 0 =>
      match pbuf_read_varint rest with
      | .error e => .error e
      | .ok (i, l, rest') => .ok (f, .int i, n + l, rest')
    | 2 =>
      match pbuf_read_str rest with
      | .error e => .error e
      | .ok (s, l, rest') => .ok (f, .bytes s, n + l, rest')
    | _ => .error .unhandledField

/-- Loop of `pbuf_parse_tagvals(data)` (source lines 75-82).  The reported
length of every tag-value equals the bytes actually consumed from the
cursor, so the source's `size` counter hits `0` exactly when the buffer is
exhausted and the final `assert size == 0` cannot fire; the loop is driven
by the remaining bytes, with fuel for structural recursion. -/
def pbuf_parse_tagvals_go : Nat → Bytes → Except Err (List (Nat × TagVal))
  | _, [] => .ok []
  | 0, _ :: _ => .error .outOfFuel
  | fuel + 1, data => do
    let (t, v, _, rest) ← pbuf_read_tagval data
    let tail ← pbuf_parse_tagvals_go fuel rest
    .ok ((t, v) :: tail)

/-- `pbuf_parse_tagvals(data)`: the list of `(field, value)` pairs of a
buffer.  Each iteration consumes at least one byte, so `data.length` fuel
suffices. -/
def pbuf_parse_tagvals (data : Bytes) : Except Err (List (Nat × TagVal)) :=
  pbuf_parse_tagvals_go data.length data

/-- Loop of `pbuf_parse_packed(data)` (source lines 85-94). -/
def pbuf_parse_packed_go : Nat → Bytes → Except Err (List Nat)
  | _, [] => .ok []
  | 0, _ :: _ => .error .outOfFuel
  | fuel + 1, data => do
    let (v, _, rest) ← pbuf_read_varint data
    let tail ← pbuf_parse_packed_go fuel rest
    .ok (v :: tail)

/-- `pbuf_parse_packed(data)`: the packed plain varints of a buffer. -/
def pbuf_parse_packed (data : Bytes) : Except Err (List Nat) :=
  pbuf_parse_packed_go data.length data

/-- Loop of `pbuf_parse_packed_deltas` (source lines 104-108): `v` is the
running accumulator, already appended to the result. -/
def pbuf_deltas_go : Nat → Int → Bytes → Except Err (List Int)
  | _, v, [] => .ok [v]
  | 0, _, _ :: _ => .error .outOfFuel
  | fuel + 1, v, data => do
    let (d, _, rest) ← pbuf_read_varsint data
    let tail ← pbuf_deltas_go fuel (v + d) rest
    .ok (v :: tail)

/-- `pbuf_parse_packed_deltas(data)`: empty input gives an empty list;
otherwise one signed varint as the initial value, then signed varints added
to a running accumulator, each intermediate value appended. -/
def pbuf_parse_packed_deltas (data : Bytes) : Except Err (List Int) :=
  match data with
  | [] => .ok []
  | _ :: _ => do
    let (v, _, rest) ← pbuf_read_varsint data
    pbuf_deltas_go data.length v rest

/-- `dict(vals).get(k)` for the association lists built by `read_message`:
later bindings of the same key overwrite earlier ones. -/
def dictGet (m : List (Nat × TagVal)) (k : Nat) : Option TagVal :=
  (m.reverse.find? (fun p => p.1 == k)).map (·.2)

/-- Python truthiness of an optional field value: `None`, `0` and `b''`
are falsy. -/
def tvTruthy : Option TagVal → Bool
  | none => false
  | some (.int n) => n != 0
  | some (.bytes b) => !b.isEmpty

/-- Loop of `read_message` inside `pbf_read` (source lines 114-121): reads
tag-values from the stream while `size > 0`, subtracting each reported
length; a positive leftover keeps looping, a negative one fails the final
`assert size == 0`.  Fuel: each iteration consumes a positive reported
length, so `size.toNat` iterations suffice. -/
def read_message_go : Nat → Bytes → Int → Except Err (List (Nat × TagVal) × Bytes)
  | 0, stream, size =>
    if 0 < size then .error .outOfFuel
    else if size = 0 then .ok ([], stream)
    else .error .assertionError
  | fuel + 1, stream, size =>
    if 0 < size then
      match pbuf_read_tagval stream with
      | .error e => .error e
      | .ok (t, v, l, rest) =>
        match read_message_go fuel rest (size - (l : Int)) with
        | .error e => .error e
        | .ok (tail, rest') => .ok ((t, v) :: tail, rest')
    else if size = 0 then .ok ([], stream)
    else .error .assertionError

/-- `read_message(file, size)`: the `(field, value)` pairs of one
submessage read straight off the stream. -/
def read_message (stream : Bytes) (size : Int) : Except Err (List (Nat × TagVal) × Bytes) :=
  read_message_go size.toNat stream size

/-- `read_header(file)` (source lines 122-126): `file.read(4)` returns up
to 4 bytes; zero bytes means clean end of stream (`None`), one to three
bytes make `struct.unpack('>I', s)` raise, four bytes give a big-endian
size followed by `read_message`. -/
def read_header (stream : Bytes) : Except Err (Option (List (Nat × TagVal) × Bytes)) :=
  match stream with
  | [] => .ok none
  | b0 :: b1 :: b2 :: b3 :: rest =>
    match read_message rest (((((b0 * 256 + b1) * 256 + b2) * 256 + b3 : Nat)) : Int) with
    | .error e => .error e
    | .ok hm => .ok (some hm)
  | _ => .error .structError

/-- One frame body yielded by `pbf_read`: the uncompressed branch of the
source yields the whole decoded body dict `m`, the compressed branch yields
the decompressed byte string. -/
inductive Body where
  | dict : List (Nat × TagVal) → Body
  | bytes : Bytes → Body
deriving DecidableEq, Repr

/-- Body handling of `pbf_read` (source lines 133-143): if field 1 of the
body is truthy the source yields `(t, m)` — the dict itself, `v` is bound
by the walrus but unused; otherwise field 2 gives the declared size and a
truthy field 3 is decompressed and its length compared (`assert`); with
neither, `Exception('unahndled encoding ...')` is raised.  `dc` is the
`zlib.decompress` callback; Python's `len(v) == n` is `False` when `n` is
a byte string. -/
def pbf_handle_body (dc : Bytes → Except Err Bytes) (m : List (Nat × TagVal)) :
    Except Err Body :=
  if tvTruthy (dictGet m 1) then .ok (.dict m)
  else
    let n := (dictGet m 2).getD (.int 0)
    if tvTruthy (dictGet m 3) then
      match dictGet m 3 with
      | some (.bytes c) =>
        match dc c with
        | .error e => .error e
        | .ok w =>
          match n with
          | .int k => if w.length = k then .ok (.bytes w) else .error .assertionError
          | .bytes _ => .error .assertionError
      | some (.int _) => .error .typeError
      | none => .error .unhandledEncoding
    else .error .unhandledEncoding

/-- The `h.get(3, 0)` size for the body `read_message` call: a missing
field defaults to `0`; a byte-string value would be compared against an
`int` by `while size > 0` and raise `TypeError`. -/
def headerBodySize (h : List (Nat × TagVal)) : Except Err Int :=
  match dictGet h 3 with
  | none => .ok 0
  | some (.int k) => .ok (k : Int)
  | some (.bytes _) => .error .typeError

/-- Frame loop of `pbf_read` (source lines 127-143).  Each produced frame
consumes at least the 4 length-prefix bytes, so `stream.length` fuel
suffices.  `h = []` is the falsy empty dict: `if not h: break`. -/
def pbf_read_go (dc : Bytes → Except Err Bytes) :
    Nat → Bytes → Except Err (List (Option TagVal × Body))
  | 0, stream =>
    (match read_header stream with
     | .error e => .error e
     | .ok none => .ok []
     | .ok (some (h, _)) => if h = [] then .ok [] else .error .outOfFuel)
  | fuel + 1, stream =>
    (match read_header stream with
     | .error e => .error e
     | .ok none => .ok []
     | .ok (some (h, rest)) =>
       if h = [] then .ok []
       else do
         let t := dictGet h 1
         let n ← headerBodySize h
         let (m, rest') ← read_message rest n
         let body ← pbf_handle_body dc m
         let tail ← pbf_read_go dc fuel rest'
         .ok ((t, body) :: tail))

/-- `pbf_read(file)`: the list of `(type label, body)` frames of a stream,
with `dc` standing for `zlib.decompress`. -/
def pbf_read (dc : Bytes → Except Err Bytes) (stream : Bytes) :
    Except Err (List (Option TagVal × Body)) :=
  pbf_read_go dc stream.length stream

/-- A buffer-valued field: Python would raise `TypeError` when an `int`
value reaches `io.BytesIO(...)` or another bytes-only consumer. -/
def tvBytes : TagVal → Except Err Bytes
  | .bytes bs => .ok bs
  | .int _ => .error .typeError

/-- A decoded point record: `osm_read_dense_nodes` produces the 4-tuples
`(id, lat, lon, kvs)` of `zip(ids, lats, lons, kvs)`; `osm_read_group`
appends the raw field list of a singly-encoded node (field 1) as-is. -/
inductive Node where
  | dense : Int → Int → Int → List (Bytes × Bytes) → Node
  | raw : List (Nat × TagVal) → Node
deriving DecidableEq, Repr

/-- Loop of `osm_read_header_block` over the top-level fields: field 1 is
recursively decoded with `pbuf_parse_tagvals`. -/
inductive HeaderVal where
  | plain : TagVal → HeaderVal
  | sub : List (Nat × TagVal) → HeaderVal
deriving DecidableEq, Repr

/-- Body of `osm_read_header_block` (source lines 146-156). -/
def osm_hdr_loop : List (Nat × TagVal) → Except Err (List (Nat × HeaderVal))
  | [] => .ok []
  | (1, v) :: rest => do
    let bs ← tvBytes v
    let sub ← pbuf_parse_tagvals bs
    let tail ← osm_hdr_loop rest
    .ok ((1, .sub sub) :: tail)
  | (t, v) :: rest => do
    let tail ← osm_hdr_loop rest
    .ok ((t, .plain v) :: tail)

/-- `osm_read_header_block(data)`: structured field list of a metadata
block. -/
def osm_read_header_block (data : Bytes) : Except Err (List (Nat × HeaderVal)) := do
  let tvs ← pbuf_parse_tagvals data
  osm_hdr_loop tvs

/-- Loop of `osm_read_stringtable` (source lines 169-176): field 1 entries
are decoded text (kept as bytes here), any other tag raises.  An `int`
entry would have no `.decode` (`AttributeError`). -/
def osm_st_loop : List (Nat × TagVal) → Except Err (List Bytes)
  | [] => .ok []
  | (1, v) :: rest =>
    (match v with
     | .bytes s => do
       let tail ← osm_st_loop rest
       .ok (s :: tail)
     | .int _ => .error .attributeError)
  | (_, _) :: _ => .error .unhandledTag

/-- `osm_read_stringtable(data)`: the block's string dictionary in
encounter order. -/
def osm_read_stringtable (data : Bytes) : Except Err (List Bytes) := do
  let tvs ← pbuf_parse_tagvals data
  osm_st_loop tvs

/-- `names[i]` on the per-block string table: `names` is `None` before any
string table was seen (`None[i]` raises `TypeError`); an out-of-range
index raises `IndexError`.  `i : Nat`, so no negative indices occur. -/
def namesGet (names : Option (List Bytes)) (i : Nat) : Except Err Bytes :=
  match names with
  | none => .error .typeError
  | some ns =>
    match ns[i]? with
    | some s => .ok s
    | none => .error .indexError

/-- The `t == 10` inner loop of `osm_read_dense_nodes` (source lines
206-219): walks the packed key/value index array `gs`, splitting on the
`0` sentinel into one tag list per point.  `node` is the tag list being
accumulated; when the array ends it is discarded — only sentinel-completed
lists reach `kvs`.  A key index with no following value index makes the
explicit `next(gs)` raise `StopIteration`. -/
def tagRunLoop (names : Option (List Bytes)) :
    List (Bytes × Bytes) → List (List (Bytes × Bytes)) → List Nat →
    Except Err (List (List (Bytes × Bytes)))
  | _, kvs, [] => .ok kvs
  | node, kvs, 0 :: gs => tagRunLoop names [] (kvs ++ [node]) gs
  | node, kvs, i :: gs =>
    (match namesGet names i with
     | .error e => .error e
     | .ok k =>
       match gs with
       | [] => .error .stopIteration
       | j :: gs' =>
         match namesGet names j with
         | .error e => .error e
         | .ok v => tagRunLoop names (node ++ [(k, v)]) kvs gs')

/-- The four local arrays of `osm_read_dense_nodes`; a field that never
occurred leaves its local unbound (`none`). -/
structure DenseState where
  ids : Option (List Int)
  lats : Option (List Int)
  lons : Option (List Int)
  kvs : Option (List (List (Bytes × Bytes)))
deriving DecidableEq, Repr

/-- Field loop of `osm_read_dense_nodes` (source lines 199-219). -/
def osm_dense_loop (names : Option (List Bytes)) (st : DenseState) :
    List (Nat × TagVal) → Except Err DenseState
  | [] => .ok st
  | (1, v) :: rest => do
    let bs ← tvBytes v
    let ids ← pbuf_parse_packed_deltas bs
    osm_dense_loop names { st with ids := some ids } rest
  | (8, v) :: rest => do
    let bs ← tvBytes v
    let lats ← pbuf_parse_packed_deltas bs
    osm_dense_loop names { st with lats := some lats } rest
  | (9, v) :: rest => do
    let bs ← tvBytes v
    let lons ← pbuf_parse_packed_deltas bs
    osm_dense_loop names { st with lons := some lons } rest
  | (10, v) :: rest => do
    let bs ← tvBytes v
    let packed ← pbuf_parse_packed bs
    let kvs ← tagRunLoop names [] [] packed
    osm_dense_loop names { st with kvs := some kvs } rest
  | (_, _) :: rest => osm_dense_loop names st rest

/-- `zip(ids, lats, lons, kvs)`: truncates at the shortest list. -/
def zipNodes : List Int → List Int → List Int → List (List (Bytes × Bytes)) → List Node
  | a :: as', b :: bs', c :: cs', d :: ds' => .dense a b c d :: zipNodes as' bs' cs' ds'
  | _, _, _, _ => []

/-- `osm_read_dense_nodes(data, names)` (source lines 198-221): decode the
four parallel arrays, then `assert len(ids) == len(lats) == len(lons) ==
len(kvs)` — referencing a local that was never assigned raises
`UnboundLocalError` — and zip them into records. -/
def osm_read_dense_nodes (data : Bytes) (names : Option (List Bytes)) :
    Except Err (List Node) := do
  let tvs ← pbuf_parse_tagvals data
  let st ← osm_dense_loop names ⟨none, none, none, none⟩ tvs
  match st.ids, st.lats, st.lons, st.kvs with
  | some ids, some lats, some lons, some kvs =>
    if ids.length = lats.length ∧ lats.length = lons.length ∧ lons.length = kvs.length
    then .ok (zipNodes ids lats lons kvs)
    else .error .assertionError
  | _, _, _, _ => .error .unboundLocal

/-- `osm_read_node(data, names)` (source lines 191-195): the raw field
list of a singly-encoded node; `names` is unused in the source too. -/
def osm_read_node (data : Bytes) (_names : Option (List Bytes)) :
    Except Err (List (Nat × TagVal)) :=
  pbuf_parse_tagvals data

/-- Loop of `osm_read_group` (source lines 179-188). -/
def osm_group_loop (names : Option (List Bytes)) :
    List (Nat × TagVal) → Except Err (List Node)
  | [] => .ok []
  | (1, v) :: rest => do
    let bs ← tvBytes v
    let nd ← osm_read_node bs names
    let tail ← osm_group_loop names rest
    .ok (.raw nd :: tail)
  | (2, v) :: rest => do
    let bs ← tvBytes v
    let vs ← osm_read_dense_nodes bs names
    let tail ← osm_group_loop names rest
    .ok (vs ++ tail)
  | (_, _) :: rest => osm_group_loop names rest

/-- `osm_read_group(data, names)`: nodes of one primitive group. -/
def osm_read_group (data : Bytes) (names : Option (List Bytes)) :
    Except Err (List Node) := do
  let tvs ← pbuf_parse_tagvals data
  osm_group_loop names tvs

/-- Loop of `osm_read_data_block` (source lines 159-166): field 1 replaces
the current string table, field 2 yields a decoded group. -/
def osm_data_loop (names : Option (List Bytes)) :
    List (Nat × TagVal) → Except Err (List (Nat × List Node))
  | [] => .ok []
  | (2, v) :: rest => do
    let bs ← tvBytes v
    let g ← osm_read_group bs names
    let tail ← osm_data_loop names rest
    .ok ((2, g) :: tail)
  | (1, v) :: rest => do
    let bs ← tvBytes v
    let ns ← osm_read_stringtable bs
    osm_data_loop (some ns) rest
  | (_, _) :: rest => osm_data_loop names rest

/-- `osm_read_data_block(data)`: the `(2, group)` pairs yielded for a data
block, starting with no string table (`names = None`). -/
def osm_read_data_block (data : Bytes) : Except Err (List (Nat × List Node)) := do
  let tvs ← pbuf_parse_tagvals data
  osm_data_loop none tvs

/-- `osm_enumerate_nodes(data)` (source lines 224-227): flatten the groups
of the `t == 2` entries. -/
def osm_enumerate_nodes (data : Bytes) : Except Err (List Node) := do
  let gs ← osm_read_data_block data
  .ok ((gs.filter (fun p => p.1 == 2)).map (fun p => p.2)).flatten

/-- The body dispatch of `main` (source lines 270-275), query and printing
stripped: `OSMHeader` bodies go through `osm_read_header_block` (result
inspected only), `OSMData` bodies contribute their enumerated nodes, any
other label is skipped.  A `Body.dict` body — produced by the uncompressed
branch of `pbf_read` — reaches `io.BytesIO(...)` and raises `TypeError`. -/
def pipeLoop : List (Option TagVal × Body) → Except Err (List Node)
  | [] => .ok []
  | (t, body) :: rest =>
    if t = some (.bytes (ascii "OSMHeader")) then do
      let bs ← (match body with | .bytes bs => .ok bs | .dict _ => .error Err.typeError)
      let _ ← osm_read_header_block bs
      pipeLoop rest
    else if t = some (.bytes (ascii "OSMData")) then do
      let bs ← (match body with | .bytes bs => .ok bs | .dict _ => .error Err.typeError)
      let ns ← osm_enumerate_nodes bs
      let tail ← pipeLoop rest
      .ok (ns ++ tail)
    else pipeLoop rest

/-- The full decode pipeline of `main`: frames from `pbf_read`, records
from the data blocks, in stream order. -/
def osm_pipeline (dc : Bytes → Except Err Bytes) (stream : Bytes) :
    Except Err (List Node) := do
  let frames ← pbf_read dc stream
  pipeLoop frames

/-- Modelled from the spec: base-128 varint encoding — low 7 bits per byte,
high bit as continuation flag (§4.1, glossary).  Fuel-structured; `x`
itself is always enough fuel since the remainder shrinks every step. -/
def encode_varint_go : Nat → Nat → List Nat
  | 0, x => [x]
  | fuel + 1, x => if x < 128 then [x] else (x % 128 + 128) :: encode_varint_go fuel (x / 128)

/-- Modelled from the spec: the base-128 varint encoding of an unsigned
integer (the encoder is not part of the source; the spec's varint law in
§8 refers to it). -/
def encode_varint (x : Nat) : List Nat := encode_varint_go x x

/-- Modelled from the spec: zig-zag encoding, "signed-to-unsigned integer
mapping that keeps small-magnitude values compact" (glossary) — the
standard protobuf mapping 0, -1, 1, -2, ... ↦ 0, 1, 2, 3, ... -/
def zigzag (n : Int) : Nat :=
  if 0 ≤ n then (2 * n).toNat else (2 * (-n) - 1).toNat

/-- Modelled from the spec: the zig-zag varint encoding of a signed
integer (§8 varint law). -/
def encode_signed_varint (n : Int) : List Nat := encode_varint (zigzag n)

/-- Modelled from the spec: the tail of the delta encoding of a sequence —
each element as the zig-zag-encoded difference from its predecessor (§4.3,
§8 delta law). -/
def deltaRest (prev : Int) : List Int → List Nat
  | [] => []
  | x :: xs => encode_signed_varint (x - prev) ++ deltaRest x xs

/-- Modelled from the spec: the delta encoding of a sequence of signed
integers — first element verbatim (as a signed varint), then zig-zag-encoded
successive differences. -/
def delta_encode : List Int → List Nat
  | [] => []
  | x :: xs => encode_signed_varint x ++ deltaRest x xs

/-! ### Concrete crafted inputs

The spec's §8 "concrete scenario": a metadata frame with empty payload
followed by one data frame with string table and one dense group.  The
frame bodies use the compressed encoding (declared size in field 2,
compressed bytes in field 3); the placeholder compressed byte strings
`[255]`, `[254]`, `[253]`, `[252]` are mapped to their payloads by the
concrete decompression callback `dcMain`. -/

/-- `b'OSMHeader'`. -/
def osmHeaderLabel : Bytes := ascii "OSMHeader"

/-- `b'OSMData'`. -/
def osmDataLabel : Bytes := ascii "OSMData"

/-- The string-table submessage with entries `"amenity"`, `"cafe"` — the
table exactly as the spec's scenario words it. -/
def stTable : Bytes := [10, 7] ++ ascii "amenity" ++ [10, 4] ++ ascii "cafe"

/-- The string-table submessage with the format's reserved empty entry at
index 0: entries `""`, `"amenity"`, `"cafe"`. -/
def stTable' : Bytes := [10, 0] ++ stTable

/-- The dense-nodes submessage: ids delta-encoded `[100, +1]` (field 1),
lats `[10, 0]` (field 8), lons `[20, 1]` (field 9), packed tag run
`[1, 2, 0, 0]` (field 10). -/
def denseMsg : Bytes :=
  [10, 3, 200, 1, 2] ++ [66, 2, 20, 0] ++ [74, 2, 40, 2] ++ [82, 4, 1, 2, 0, 0]

/-- The primitive-group submessage holding `denseMsg` as field 2. -/
def groupMsg : Bytes := [18, 19] ++ denseMsg

/-- Data-block payload with the scenario's two-entry string table. -/
def payloadData : Bytes := [10, 15] ++ stTable ++ [18, 21] ++ groupMsg

/-- Data-block payload with the three-entry string table (reserved empty
entry at index 0). -/
def payloadData' : Bytes := [10, 17] ++ stTable' ++ [18, 21] ++ groupMsg

/-- A dense-nodes submessage with mismatched array lengths: one id, one
lat, one lon, but a tag run `[0, 0]` producing two per-point tag lists. -/
def denseCorrupt : Bytes := [10, 2, 200, 1] ++ [66, 1, 20] ++ [74, 1, 40] ++ [82, 2, 0, 0]

/-- Data-block payload wrapping `denseCorrupt` (no string table: the tag
run holds no dictionary indices). -/
def payloadCorrupt : Bytes := [18, 16] ++ [18, 14] ++ denseCorrupt

/-- The concrete decompression callback: placeholder compressed byte
strings map to the payloads above. -/
def dcMain (c : Bytes) : Except Err Bytes :=
  if c = [255] then .ok []
  else if c = [254] then .ok payloadData
  else if c = [253] then .ok payloadData'
  else if c = [252] then .ok payloadCorrupt
  else .error .zlibError

/-- The metadata frame: header submessage `{1: b'OSMHeader', 3: 5}`, body
`{2: 0, 3: [255]}` (compressed empty payload). -/
def hdrFrame : Bytes :=
  [0, 0, 0, 13] ++ ([10, 9] ++ osmHeaderLabel ++ [24, 5]) ++ [16, 0, 26, 1, 255]

/-- The data frame carrying `payloadData` (declared size 40). -/
def dataFrame : Bytes :=
  [0, 0, 0, 11] ++ ([10, 7] ++ osmDataLabel ++ [24, 5]) ++ [16, 40, 26, 1, 254]

/-- The data frame carrying `payloadData'` (declared size 42). -/
def dataFrame' : Bytes :=
  [0, 0, 0, 11] ++ ([10, 7] ++ osmDataLabel ++ [24, 5]) ++ [16, 42, 26, 1, 253]

/-- The data frame carrying `payloadCorrupt` (declared size 18). -/
def dataFrameCorrupt : Bytes :=
  [0, 0, 0, 11] ++ ([10, 7] ++ osmDataLabel ++ [24, 5]) ++ [16, 18, 26, 1, 252]

/-- The spec scenario's minimal crafted file, string table as written
(`["amenity","cafe"]`). -/
def fileSpec : Bytes := hdrFrame ++ dataFrame

/-- The crafted file with the reserved empty string-table entry added. -/
def fileSpec' : Bytes := hdrFrame ++ dataFrame'

/-- A corrupt-group data frame followed by a well-formed data frame. -/
def fileCorruptThenGood : Bytes := dataFrameCorrupt ++ dataFrame'

/-- The two point records of the spec scenario. -/
def specRecords : List Node :=
  [.dense 100 10 20 [(ascii "amenity", ascii "cafe")], .dense 101 10 21 []]

/-! ### Decidable equality of results -/

instance {ε α : Type} [DecidableEq ε] [DecidableEq α] : DecidableEq (Except ε α) := fun
  | .ok a, .ok b =>
    if h : a = b then .isTrue (by rw [h]) else .isFalse (by intro hh; cases hh; exact h rfl)
  | .error a, .error b =>
    if h : a = b then .isTrue (by rw [h]) else .isFalse (by intro hh; cases hh; exact h rfl)
  | .ok _, .error _ => .isFalse (fun h => Except.noConfusion h)
  | .error _, .ok _ => .isFalse (fun h => Except.noConfusion h)

/-! ### Bitwise groundwork for the varint round trip -/

/-- Accumulating a block of bits above the bits already collected:
`r ||| (b <<< i) = r + b * 2 ^ i` when `r` fits in `i` bits. -/
theorem lor_shiftLeft_eq_add {r : Nat} (b i : Nat) (h : r < 2 ^ i) :
    r ||| (b <<< i) = r + b * 2 ^ i := by
  rw [Nat.shiftLeft_eq, Nat.mul_comm b (2 ^ i), Nat.or_comm,
    ← Nat.mul_add_lt_is_or h b]
  omega

/-- `x & 0x7f` keeps the low 7 bits. -/
theorem and_127_eq_mod (x : Nat) : x &&& 127 = x % 128 := by
  simpa using Nat.and_pow_two_sub_one_eq_mod x 7

/-- A byte below 0x80 has no continuation bit. -/
theorem and_128_eq_zero {x : Nat} (h : x < 128) : x &&& 128 = 0 := by
  have h7 : x.testBit 7 = false := Nat.testBit_lt_two_pow (by norm_num; omega)
  apply Nat.eq_of_testBit_eq
  intro j
  rw [Nat.testBit_and, Nat.zero_testBit]
  rcases eq_or_ne j 7 with rfl | hj
  · simp [h7]
  · have h128 : (128 : Nat).testBit j = false := by
      have := Nat.testBit_two_pow_of_ne (n := 7) (m := j) (Ne.symm hj)
      norm_num at this
      exact this
    simp [h128]

/-- A byte of the form `a + 0x80` with `a < 0x80` has the continuation
bit set. -/
theorem and_128_add_ne_zero {a : Nat} (h : a < 128) : (a + 128) &&& 128 ≠ 0 := by
  intro h0
  have hbit : ((a + 128) &&& 128).testBit 7 = false := by
    rw [h0]; exact Nat.zero_testBit 7
  rw [Nat.testBit_and] at hbit
  have h1 : (128 : Nat).testBit 7 = true := by
    have := Nat.testBit_two_pow_self (n := 7)
    norm_num at this
    exact this
  have h2 : (a + 128).testBit 7 = true := by
    have := Nat.testBit_two_pow_add_eq a 7
    norm_num at this
    rw [Nat.add_comm a 128]
    rw [this, Nat.testBit_lt_two_pow (by norm_num; omega)]
    rfl
  rw [h1, h2] at hbit
  exact Bool.noConfusion hbit

/-- The varint loop inverts the spec-modelled encoder: reading the
encoding of `x` laid before `rest` adds `x`'s bits above the `i` bits
already accumulated in `r` and consumes exactly the encoded bytes. -/
theorem varintLoop_encode_go :
    ∀ fuel x, x ≤ fuel → ∀ (rest : Bytes) (r i l : Nat), r < 2 ^ i →
      varintLoop (encode_varint_go fuel x ++ rest) r i l =
        .ok (r + x * 2 ^ i, l + (encode_varint_go fuel x).length, rest) := by
  intro fuel
  induction fuel with
  | zero =>
    intro x hx rest r i l _
    have hx0 : x = 0 := Nat.le_zero.mp hx
    subst hx0
    simp [encode_varint_go, varintLoop]
  | succ f ih =>
    intro x hx rest r i l hr
    rw [encode_varint_go]
    by_cases hx128 : x < 128
    · rw [if_pos hx128]
      have hand : x &&& 127 = x := by rw [and_127_eq_mod]; omega
      simp only [List.cons_append, List.nil_append, varintLoop, hand,
        and_128_eq_zero hx128, ne_eq, not_true_eq_false, if_false,
        ite_false, List.length_cons, List.length_nil]
      rw [lor_shiftLeft_eq_add x i hr]
      simp
    · rw [if_neg hx128]
      have hand : (x % 128 + 128) &&& 127 = x % 128 := by
        rw [and_127_eq_mod]; omega
      have hcont := and_128_add_ne_zero (a := x % 128) (Nat.mod_lt _ (by norm_num))
      simp only [List.cons_append, varintLoop, hand, hcont, ne_eq,
        not_false_eq_true, if_true, ite_true, List.length_cons]
      rw [lor_shiftLeft_eq_add (x % 128) i hr]
      simp only [List.append_eq]
      have hdiv : x / 128 ≤ f := by
        have : x / 128 < x := Nat.div_lt_self (by omega) (by norm_num)
        omega
      have hr' : r + x % 128 * 2 ^ i < 2 ^ (i + 7) := by
        have hp : 2 ^ (i + 7) = 2 ^ i * 128 := by rw [pow_add]; norm_num
        have hm : x % 128 * 2 ^ i ≤ 127 * 2 ^ i :=
          Nat.mul_le_mul_right _ (by omega)
        have := Nat.two_pow_pos i
        nlinarith
      rw [ih (x / 128) hdiv rest _ (i + 7) (l + 1) hr']
      have hp : 2 ^ (i + 7) = 2 ^ i * 128 := by rw [pow_add]; norm_num
      have hsum : r + x % 128 * 2 ^ i + x / 128 * 2 ^ (i + 7) = r + x * 2 ^ i := by
        rw [hp]
        have hx' : x % 128 + 128 * (x / 128) = x := Nat.mod_add_div x 128
        nlinarith
      rw [hsum]
      have hl : l + 1 + (encode_varint_go f (x / 128)).length
          = l + ((encode_varint_go f (x / 128)).length + 1) := by omega
      rw [hl]

/-- The encoder never produces an empty byte string. -/
theorem encode_varint_go_length_pos (fuel x : Nat) :
    0 < (encode_varint_go fuel x).length := by
  cases fuel with
  | zero => simp [encode_varint_go]
  | succ f =>
    rw [encode_varint_go]
    split <;> simp

/-- Unsigned varint round trip, with arbitrary trailing bytes. -/
theorem pbuf_read_varint_encode (x : Nat) (rest : Bytes) :
    pbuf_read_varint (encode_varint x ++ rest) =
      .ok (x, (encode_varint x).length, rest) := by
  have h := varintLoop_encode_go x x (Nat.le_refl x) rest 0 0 0 (by norm_num)
  simpa [pbuf_read_varint, encode_varint] using h

/-- Signed varint round trip for non-negative values: the source's
zig-zag decode inverts the standard zig-zag encoder on `n ≥ 0`. -/
theorem pbuf_read_varsint_encode_nonneg (n : Int) (hn : 0 ≤ n) (rest : Bytes) :
    pbuf_read_varsint (encode_signed_varint n ++ rest) =
      .ok (n, (encode_signed_varint n).length, rest) := by
  have hz : zigzag n = 2 * n.toNat := by rw [zigzag, if_pos hn]; omega
  have hmod : zigzag n &&& 1 = 0 := by
    rw [Nat.and_one_is_mod, hz]; omega
  have hshift : zigzag n >>> 1 = n.toNat := by
    rw [Nat.shiftRight_eq_div_pow, hz]; omega
  have hval : Int.ofNat n.toNat = n := by rw [Int.ofNat_eq_natCast]; omega
  rw [encode_signed_varint]
  simp only [pbuf_read_varsint, pbuf_read_varint_encode, hmod, hshift, hval,
    ne_eq, not_true_eq_false, if_false, ite_false]

/-- Signed varint decode of the standard zig-zag encoding of a negative
value: the source's `-(v >> 1)` (instead of `-(v >> 1) - 1`) yields
`n + 1`. -/
theorem pbuf_read_varsint_encode_neg (n : Int) (hn : n < 0) (rest : Bytes) :
    pbuf_read_varsint (encode_signed_varint n ++ rest) =
      .ok (n + 1, (encode_signed_varint n).length, rest) := by
  have hz : zigzag n = 2 * (-n).toNat - 1 := by
    rw [zigzag, if_neg (by omega)]; omega
  have hk : 1 ≤ (-n).toNat := by omega
  have hmod : zigzag n &&& 1 ≠ 0 := by
    rw [Nat.and_one_is_mod, hz]; omega
  have hshift : zigzag n >>> 1 = (-n).toNat - 1 := by
    rw [Nat.shiftRight_eq_div_pow, hz]; omega
  have hval : -(Int.ofNat ((-n).toNat - 1)) = n + 1 := by rw [Int.ofNat_eq_natCast]; omega
  rw [encode_signed_varint]
  simp only [pbuf_read_varsint, pbuf_read_varint_encode, hshift, hval,
    if_pos hmod]

/-- One step of the delta loop on a non-empty buffer, with positive fuel. -/
theorem pbuf_deltas_go_succ_cons (f : Nat) (v : Int) (a : Nat) (l : Bytes) :
    pbuf_deltas_go (f + 1) v (a :: l) =
      match pbuf_read_varsint (a :: l) with
      | .error e => .error e
      | .ok (d, _, rest) =>
        match pbuf_deltas_go f (v + d) rest with
        | .error e => .error e
        | .ok tail => .ok (v :: tail) := by
  show (do
    let (d, _, rest) ← pbuf_read_varsint (a :: l)
    let tail ← pbuf_deltas_go f (v + d) rest
    (Except.ok (v :: tail) : Except Err (List Int))) = _
  cases hv : pbuf_read_varsint (a :: l) with
  | error e => rfl
  | ok dlr =>
    obtain ⟨d, l', rest⟩ := dlr
    simp only [bind, Except.bind]
    cases pbuf_deltas_go f (v + d) rest <;> rfl

/-- The delta loop inverts the spec-modelled delta encoder when every
successive difference is non-negative, given enough fuel. -/
theorem pbuf_deltas_go_encode :
    ∀ (xs : List Int) (prev : Int) (fuel : Nat),
      (deltaRest prev xs).length ≤ fuel →
      List.Chain' (· ≤ ·) (prev :: xs) →
      pbuf_deltas_go fuel prev (deltaRest prev xs) = .ok (prev :: xs) := by
  intro xs
  induction xs with
  | nil =>
    intro prev fuel _ _
    simp [deltaRest, pbuf_deltas_go]
  | cons x xs' ih =>
    intro prev fuel hlen hchain
    rw [List.chain'_cons] at hchain
    obtain ⟨hpx, hchain'⟩ := hchain
    rw [deltaRest] at hlen ⊢
    obtain ⟨b, e', he⟩ : ∃ b e', encode_signed_varint (x - prev) = b :: e' := by
      cases h : encode_signed_varint (x - prev) with
      | nil =>
        have := encode_varint_go_length_pos (zigzag (x - prev)) (zigzag (x - prev))
        rw [← encode_varint, ← encode_signed_varint, h] at this
        simp at this
      | cons b e' => exact ⟨b, e', rfl⟩
    have hlen1 : 1 ≤ (encode_signed_varint (x - prev)).length := by
      rw [he]; simp
    obtain ⟨f, rfl⟩ : ∃ f, fuel = f + 1 := by
      rw [List.length_append] at hlen
      exact ⟨fuel - 1, by omega⟩
    rw [he, List.cons_append, pbuf_deltas_go_succ_cons]
    have hback : b :: (e' ++ deltaRest x xs') =
        encode_signed_varint (x - prev) ++ deltaRest x xs' := by
      rw [he, List.cons_append]
    rw [hback, pbuf_read_varsint_encode_nonneg (x - prev) (by omega)]
    have hstep : prev + (x - prev) = x := by omega
    show (match pbuf_deltas_go f (prev + (x - prev)) (deltaRest x xs') with
      | Except.error e => (Except.error e : Except Err (List Int))
      | Except.ok tail => Except.ok (prev :: tail)) = Except.ok (prev :: x :: xs')
    rw [hstep, ih x f (by rw [List.length_append] at hlen; omega) hchain']

/-- The spec-modelled encoder never produces an empty encoding. -/
theorem encode_signed_varint_ne_nil (n : Int) : encode_signed_varint n ≠ [] := by
  intro h
  have := encode_varint_go_length_pos (zigzag n) (zigzag n)
  rw [← encode_varint, ← encode_signed_varint, h] at this
  simp at this

/-- Unfolding of `pbuf_parse_packed_deltas` on a non-empty buffer. -/
theorem pbuf_parse_packed_deltas_cons (a : Nat) (l : Bytes) :
    pbuf_parse_packed_deltas (a :: l) =
      match pbuf_read_varsint (a :: l) with
      | .error e => .error e
      | .ok (v, _, rest) => pbuf_deltas_go (a :: l).length v rest := by
  cases hv : pbuf_read_varsint (a :: l) with
  | error e =>
    show (do
      let (v, _, rest) ← pbuf_read_varsint (a :: l)
      pbuf_deltas_go (a :: l).length v rest) = _
    rw [hv]
    rfl
  | ok x =>
    obtain ⟨v, l', rest⟩ := x
    show (do
      let (v, _, rest) ← pbuf_read_varsint (a :: l)
      pbuf_deltas_go (a :: l).length v rest) = _
    rw [hv]
    rfl

/-- The packed-delta decoder inverts the spec-modelled delta encoding of
any sequence whose first element and successive differences are all
non-negative. -/
theorem pbuf_parse_packed_deltas_encode (xs : List Int)
    (h0 : ∀ y ∈ xs.head?, 0 ≤ y) (hc : xs.Chain' (· ≤ ·)) :
    pbuf_parse_packed_deltas (delta_encode xs) = .ok xs := by
  cases xs with
  | nil => rfl
  | cons x xs' =>
    have hx : (0 : Int) ≤ x := by simpa using h0
    rw [delta_encode]
    obtain ⟨b, e', he⟩ : ∃ b e', encode_signed_varint x = b :: e' := by
      cases h : encode_signed_varint x with
      | nil => exact absurd h (encode_signed_varint_ne_nil x)
      | cons b e' => exact ⟨b, e', rfl⟩
    rw [he, List.cons_append, pbuf_parse_packed_deltas_cons]
    have hback : b :: (e' ++ deltaRest x xs') =
        encode_signed_varint x ++ deltaRest x xs' := by
      rw [he, List.cons_append]
    rw [hback, pbuf_read_varsint_encode_nonneg x hx]
    show pbuf_deltas_go (encode_signed_varint x ++ deltaRest x xs').length x
      (deltaRest x xs') = Except.ok (x :: xs')
    apply pbuf_deltas_go_encode xs' x
    · simp only [List.length_append]
      omega
    · exact hc

/-! ### Claim C5 -/

/-- C5, counterexample: the standard zig-zag varint encoding of `-1` is
the single byte `[1]`, and `pbuf_read_varsint` decodes it to `0`, not
`-1` — the source computes `-(v >> 1)` where zig-zag decoding requires
`-(v >> 1) - 1` for odd `v`. -/
theorem c5_counterexample :
    pbuf_read_varsint (encode_signed_varint (-1)) = .ok (0, 1, []) ∧
      pbuf_read_varsint (encode_signed_varint (-1)) ≠ .ok (-1, 1, []) := by
  constructor
  · rfl
  · decide

/-- C5, amended: for every unsigned `x < 2^63` the varint round trip
returns `(x, encoded byte count)` (indeed for every `x : Nat`, the
accumulation being unbounded); the signed round trip holds exactly for
non-negative values, while for `n < 0` the decoder returns `n + 1`
because it computes `-(raw >> 1)` instead of `-(raw >> 1) - 1` on odd
raw values. -/
theorem c5_varint_law_amended :
    (∀ x : Nat, x < 2 ^ 63 →
      pbuf_read_varint (encode_varint x) = .ok (x, (encode_varint x).length, [])) ∧
    (∀ n : Int, 0 ≤ n →
      pbuf_read_varsint (encode_signed_varint n) =
        .ok (n, (encode_signed_varint n).length, [])) ∧
    (∀ n : Int, n < 0 →
      pbuf_read_varsint (encode_signed_varint n) =
        .ok (n + 1, (encode_signed_varint n).length, [])) := by
  refine ⟨fun x _ => ?_, fun n hn => ?_, fun n hn => ?_⟩
  · have h := pbuf_read_varint_encode x []
    rwa [List.append_nil] at h
  · have h := pbuf_read_varsint_encode_nonneg n hn []
    rwa [List.append_nil] at h
  · have h := pbuf_read_varsint_encode_neg n hn []
    rwa [List.append_nil] at h

/-- C5, witness: the amended law evaluated at `x = 300`, `n = 5` and
`n = -3`. -/
theorem c5_varint_law_amended_witness :
    pbuf_read_varint (encode_varint 300) = .ok (300, (encode_varint 300).length, []) ∧
    pbuf_read_varsint (encode_signed_varint 5) =
      .ok (5, (encode_signed_varint 5).length, []) ∧
    pbuf_read_varsint (encode_signed_varint (-3)) =
      .ok (-3 + 1, (encode_signed_varint (-3)).length, []) :=
  ⟨c5_varint_law_amended.1 300 (by norm_num),
   c5_varint_law_amended.2.1 5 (by norm_num),
   c5_varint_law_amended.2.2 (-3) (by norm_num)⟩

/-! ### Claim C6 -/

/-- C6, counterexample: the delta encoding of `[0, -1]` is `[0, 1]`
(initial value `0`, zig-zag-encoded difference `-1 ↦ 1`), and the
packed-delta decoder returns `[0, 0]`, not `[0, -1]`, because of the
zig-zag slip on negative values. -/
theorem c6_counterexample :
    pbuf_parse_packed_deltas (delta_encode [0, -1]) = .ok [0, 0] ∧
      pbuf_parse_packed_deltas (delta_encode [0, -1]) ≠ .ok [0, -1] := by
  constructor
  · rfl
  · decide

/-- C6, amended: the packed-delta decoder reproduces a sequence from its
delta encoding whenever the first element is non-negative and the
sequence is non-decreasing (all deltas non-negative); in particular the
empty sequence round-trips (empty input decodes to empty output).  A
negative first element or delta is decoded as value `+ 1` (see C5),
corrupting that and all later positions. -/
theorem c6_delta_law_amended (xs : List Int)
    (h0 : ∀ y ∈ xs.head?, 0 ≤ y) (hc : xs.Chain' (· ≤ ·)) :
    pbuf_parse_packed_deltas (delta_encode xs) = .ok xs :=
  pbuf_parse_packed_deltas_encode xs h0 hc

/-- C6, witness: the amended delta law at `[100, 101, 150]` and at the
empty sequence. -/
theorem c6_delta_law_amended_witness :
    pbuf_parse_packed_deltas (delta_encode [100, 101, 150]) = .ok [100, 101, 150] ∧
    pbuf_parse_packed_deltas (delta_encode []) = .ok [] :=
  ⟨c6_delta_law_amended [100, 101, 150] (by decide)
     (by simp [List.chain'_cons]),
   c6_delta_law_amended [] (by decide) (by simp)⟩

/-! ### Claim C3 -/

/-- C3, code behaviour at the failing input: a field declaring length 5
with only two bytes `[97, 98]` available makes `pbuf_read_str` return the
empty byte string and the partial length `3` successfully — the
`if not s: break` path returns `s` (the empty final read) instead of
raising, so no `TruncatedInput` error is produced. -/
theorem c3_truncated_read_returns_empty :
    pbuf_read_str [5, 97, 98] = .ok ([], 3, []) ∧
      pbuf_read_tagval [10, 5, 97, 98] = .ok (1, .bytes [], 4, []) := by
  constructor <;> rfl

/-! ### Claim C2 -/

/-- C2, code behaviour: for a frame whose body submessage contains
field 1 (here `{1: b'x'}`), `pbf_read` yields the whole decoded body
dict — `yield (t, m)` with the walrus-bound `v` unused — and not the
field's raw bytes `[120]`. -/
theorem c2_uncompressed_yields_dict :
    pbf_read dcMain [0, 0, 0, 5, 10, 1, 65, 24, 3, 10, 1, 120] =
      .ok [(some (.bytes [65]), .dict [(1, .bytes [120])])] ∧
    pbf_read dcMain [0, 0, 0, 5, 10, 1, 65, 24, 3, 10, 1, 120] ≠
      .ok [(some (.bytes [65]), .bytes [120])] := by
  constructor
  · rfl
  · decide

/-! ### Claim C8 -/

/-- A frame whose 4-byte length prefix is zero decodes to the empty
header dict, which is falsy: the loop breaks for any fuel. -/
theorem pbf_read_go_zero_frame (fuel : Nat) (dc : Bytes → Except Err Bytes)
    (rest : Bytes) : pbf_read_go dc fuel ([0, 0, 0, 0] ++ rest) = .ok [] := by
  cases fuel <;> rfl

/-- C8: a frame with a zero 4-byte big-endian length prefix decodes to an
empty (falsy) header submessage, and `pbf_read` ends the frame sequence
there — returning the clean empty result no matter what follows in the
stream. -/
theorem c8_zero_header_terminates (dc : Bytes → Except Err Bytes) (rest : Bytes) :
    pbf_read dc ([0, 0, 0, 0] ++ rest) = .ok [] := by
  rw [pbf_read]
  exact pbf_read_go_zero_frame ([0, 0, 0, 0] ++ rest).length dc rest

/-! ### Claim C7 -/

/-- C7: a frame body without a truthy field 1, with declared uncompressed
size `S` in field 2 and non-empty compressed bytes `c` in field 3, whose
decompression succeeds with a payload of any length other than `S`
(in particular off by one in either direction), makes the body handling
of `pbf_read` fail the `assert len(v) == n` check: the result is an
`AssertionError` and no payload is yielded for the frame. -/
theorem c7_size_mismatch (dc : Bytes → Except Err Bytes)
    (m : List (Nat × TagVal)) (S : Nat) (c w : Bytes)
    (h1 : tvTruthy (dictGet m 1) = false)
    (h2 : dictGet m 2 = some (.int S))
    (h3 : dictGet m 3 = some (.bytes c))
    (hcne : c ≠ [])
    (hdc : dc c = .ok w)
    (hS : w.length ≠ S) :
    pbf_handle_body dc m = .error .assertionError := by
  have htr : tvTruthy (dictGet m 3) = true := by
    rw [h3]
    simp [tvTruthy, hcne]
  rw [pbf_handle_body, h1, h2, htr, h3]
  simp only [Bool.false_eq_true, if_false, ite_false, if_true, ite_true,
    Option.getD_some, hdc, if_neg hS]

/-- C7, witness: declared size 2 against a one-byte decompressed payload. -/
theorem c7_size_mismatch_witness :
    pbf_handle_body (fun _ => .ok [0]) [(2, .int 2), (3, .bytes [9])] =
      .error .assertionError :=
  c7_size_mismatch (fun _ => .ok [0]) [(2, .int 2), (3, .bytes [9])] 2 [9] [0]
    (by decide) (by decide) (by decide) (by decide) rfl (by decide)

/-! ### Claim C9 -/

/-- C9: if the dense-group field loop completes without touching one of
fields 1, 8, 9, 10 (its local array stays unassigned), the final
`assert len(ids) == len(lats) == len(lons) == len(kvs)` references an
unbound local and `osm_read_dense_nodes` fails with the
`UnboundLocalError` — the missing array is not treated as empty. -/
theorem c9_missing_field_unbound (data : Bytes) (names : Option (List Bytes))
    (tvs : List (Nat × TagVal)) (st : DenseState)
    (h1 : pbuf_parse_tagvals data = .ok tvs)
    (h2 : osm_dense_loop names ⟨none, none, none, none⟩ tvs = .ok st)
    (h3 : st.ids = none ∨ st.lats = none ∨ st.lons = none ∨ st.kvs = none) :
    osm_read_dense_nodes data names = .error .unboundLocal := by
  obtain ⟨i, la, lo, k⟩ := st
  simp only [osm_read_dense_nodes, h1, h2, bind, Except.bind]
  cases i <;> cases la <;> cases lo <;> cases k <;> simp_all

/-- C9, witness: an empty dense submessage assigns none of the four
locals. -/
theorem c9_missing_field_unbound_witness :
    osm_read_dense_nodes [] none = .error .unboundLocal :=
  c9_missing_field_unbound [] none [] ⟨none, none, none, none⟩ rfl rfl
    (Or.inl rfl)

/-! ### Claim C10 -/

/-- Whether an `Except` result is a success. -/
def isOkB : Except Err Bytes → Bool
  | .ok _ => true
  | .error _ => false

/-- A trailing tag-run segment made of complete key/value index pairs:
every key index is non-zero (no sentinel) and every index resolves in the
string table. -/
def tagPairsOK (names : Option (List Bytes)) : List Nat → Bool
  | [] => true
  | [_] => false
  | k :: v :: rest =>
    (k != 0) && isOkB (namesGet names k) && isOkB (namesGet names v) &&
      tagPairsOK names rest

/-- Unfolding of the key/value step of the tag-run loop. -/
theorem tagRunLoop_step (names : Option (List Bytes)) (node : List (Bytes × Bytes))
    (kvs : List (List (Bytes × Bytes))) (k : Nat) (gs : List Nat) :
    tagRunLoop names node kvs ((k + 1) :: gs) =
      match namesGet names (k + 1) with
      | .error e => .error e
      | .ok s =>
        match gs with
        | [] => .error .stopIteration
        | j :: gs' =>
          match namesGet names j with
          | .error e => .error e
          | .ok s2 => tagRunLoop names (node ++ [(s, s2)]) kvs gs' := by
  rw [tagRunLoop]
  omega

/-- Processing a sentinel-free sequence of complete pairs never appends
to `kvs`: the loop ends returning `kvs` unchanged, the accumulated `node`
discarded. -/
theorem tagRun_pairs_only (names : Option (List Bytes)) :
    ∀ t, tagPairsOK names t = true →
      ∀ node kvs, tagRunLoop names node kvs t = .ok kvs
  | [], _, _, _ => rfl
  | [_], h, _, _ => by simp [tagPairsOK] at h
  | k :: v :: rest, h, node, kvs => by
    simp only [tagPairsOK, Bool.and_eq_true, bne_iff_ne, ne_eq] at h
    obtain ⟨⟨⟨hk0, hkOk⟩, hvOk⟩, hrest⟩ := h
    obtain ⟨k', rfl⟩ : ∃ k', k = k' + 1 := ⟨k - 1, by omega⟩
    obtain ⟨s, hs⟩ : ∃ s, namesGet names (k' + 1) = .ok s := by
      cases hng : namesGet names (k' + 1) with
      | ok s => exact ⟨s, rfl⟩
      | error e => rw [hng] at hkOk; simp [isOkB] at hkOk
    obtain ⟨s2, hs2⟩ : ∃ s2, namesGet names v = .ok s2 := by
      cases hng : namesGet names v with
      | ok s2 => exact ⟨s2, rfl⟩
      | error e => rw [hng] at hvOk; simp [isOkB] at hvOk
    rw [tagRunLoop_step, hs]
    show (match namesGet names v with
      | Except.error e => (Except.error e : Except Err (List (List (Bytes × Bytes))))
      | Except.ok s2 => tagRunLoop names (node ++ [(s, s2)]) kvs rest) = Except.ok kvs
    rw [hs2]
    exact tagRun_pairs_only names rest hrest (node ++ [(s, s2)]) kvs

/-- Appending a sentinel-free sequence of complete pairs to a tag run
does not change the loop's successful result. -/
theorem tagRun_append (names : Option (List Bytes)) :
    ∀ (p : List Nat) (node : List (Bytes × Bytes))
      (kvs r : List (List (Bytes × Bytes))) (t : List Nat),
      tagRunLoop names node kvs p = .ok r → tagPairsOK names t = true →
      tagRunLoop names node kvs (p ++ t) = .ok r
  | [], node, kvs, r, t, hp, ht => by
    have hr : kvs = r := by
      have := hp
      rw [tagRunLoop] at this
      exact Except.ok.inj this
    subst hr
    exact tagRun_pairs_only names t ht node kvs
  | 0 :: gs, node, kvs, r, t, hp, ht => by
    rw [List.cons_append]
    rw [tagRunLoop] at hp ⊢
    exact tagRun_append names gs [] (kvs ++ [node]) r t hp ht
  | (k + 1) :: gs, node, kvs, r, t, hp, ht => by
    rw [tagRunLoop_step] at hp
    cases hng : namesGet names (k + 1) with
    | error e =>
      rw [hng] at hp
      simp at hp
    | ok s =>
      rw [hng] at hp
      cases gs with
      | nil => simp at hp
      | cons j gs' =>
        simp at hp
        cases hng2 : namesGet names j with
        | error e =>
          rw [hng2] at hp
          simp at hp
        | ok s2 =>
          rw [hng2] at hp
          simp at hp
          rw [List.cons_append, List.cons_append, tagRunLoop_step, hng]
          simp only [hng2]
          exact tagRun_append names gs' (node ++ [(s, s2)]) kvs r t hp ht

/-- C10: when a tag run `p` that the loop fully processes is followed by
trailing complete key/value pairs `t` with no `0` sentinel, the result is
unchanged — the trailing point's pairs are silently dropped, never
appended to the per-point tag lists. -/
theorem c10_trailing_run_dropped (names : Option (List Bytes))
    (p t : List Nat) (r : List (List (Bytes × Bytes)))
    (hp : tagRunLoop names [] [] p = .ok r)
    (ht : tagPairsOK names t = true) :
    tagRunLoop names [] [] (p ++ t) = .ok r :=
  tagRun_append names p [] [] r t hp ht

/-- C10, witness: one sentinel-terminated empty tag list followed by an
unterminated pair `[1, 0]` — the pair is dropped and the result is the
single empty tag list either way. -/
theorem c10_trailing_run_dropped_witness :
    tagRunLoop (some [[97], [98]]) [] [] ([0] ++ [1, 0]) = .ok [[]] :=
  c10_trailing_run_dropped (some [[97], [98]]) [0] [1, 0] [[]] rfl (by decide)

/-! ### Claim C1 -/

/-- C1, counterexample: on the spec's crafted file, whose string table
decodes to `["amenity","cafe"]`, the tag run `[1, 2, 0, 0]` makes
`osm_read_dense_nodes` evaluate `names[1] = "cafe"` and then `names[2]`,
which is out of range for the two-entry table: the pipeline fails with an
`IndexError` instead of producing the two records. -/
theorem c1_scenario_counterexample :
    osm_pipeline dcMain fileSpec = .error .indexError ∧
      osm_pipeline dcMain fileSpec ≠ .ok specRecords := by
  constructor
  · rfl
  · decide

/-- C1, amended: with the frame bodies compressed and the string table
carrying the format's reserved empty entry at index 0 (entries
`["", "amenity", "cafe"]`, so that index 1 is `"amenity"` and index 2 is
`"cafe"`), the crafted file decodes to exactly the records
`(100, 10, 20, [("amenity", "cafe")])` and `(101, 10, 21, [])`, in that
order, with tag indices resolved through the block's string table. -/
theorem c1_scenario_amended :
    osm_pipeline dcMain fileSpec' = .ok specRecords := by
  rfl

/-! ### Claim C4 -/

/-- C4, counterexample: a data frame whose dense group decodes to one id,
one lat, one lon but two per-point tag lists is followed by a well-formed
data frame; the failed length assert propagates out of the enumeration,
so the whole decode errors — the subsequent frame's records are never
produced, contradicting "decoding of subsequent frames is not aborted". -/
theorem c4_scoped_error_counterexample :
    osm_pipeline dcMain fileCorruptThenGood = .error .assertionError ∧
      osm_pipeline dcMain fileCorruptThenGood ≠ .ok specRecords := by
  constructor
  · rfl
  · decide

/-- C4, amended: a dense group whose decoded id/lat/lon/tag-list arrays
do not all have equal length fails the `assert` with an `AssertionError`
and emits no records for that group; the error propagates to the caller
and aborts the whole decode, so subsequent frames are not decoded (shown
on the concrete corrupt-then-good stream). -/
theorem c4_group_corrupt_amended :
    (∀ (data : Bytes) (names : Option (List Bytes)) (tvs : List (Nat × TagVal))
      (ids lats lons : List Int) (kvs : List (List (Bytes × Bytes))),
      pbuf_parse_tagvals data = .ok tvs →
      osm_dense_loop names ⟨none, none, none, none⟩ tvs =
        .ok ⟨some ids, some lats, some lons, some kvs⟩ →
      ¬(ids.length = lats.length ∧ lats.length = lons.length ∧
          lons.length = kvs.length) →
      osm_read_dense_nodes data names = .error .assertionError) ∧
    osm_pipeline dcMain fileCorruptThenGood = .error .assertionError := by
  constructor
  · intro data names tvs ids lats lons kvs h1 h2 h3
    simp only [osm_read_dense_nodes, h1, h2, bind, Except.bind]
    rw [if_neg h3]
  · rfl

/-- C4, witness: the amended statement at the concrete corrupt dense
submessage (ids `[100]`, lats `[10]`, lons `[20]`, tag run `[0, 0]`
giving two tag lists). -/
theorem c4_group_corrupt_amended_witness :
    osm_read_dense_nodes denseCorrupt none = .error .assertionError :=
  c4_group_corrupt_amended.1 denseCorrupt none
    [(1, .bytes [200, 1]), (8, .bytes [20]), (9, .bytes [40]), (10, .bytes [0, 0])]
    [100] [10] [20] [[], []] rfl rfl (by decide)
